import Mathlib

/-!
Verification development for the PeraPera asset extraction pipeline.

Shallow embedding of the core of `src/asset_loader.py` and `src/extractor.py`:
byte strings become `List Nat` (each entry one byte value), Python dicts with a
fixed field set become Lean structures whose optional fields are `Option`s
(`none` = key absent or `None`), SQLite result sets become `List`s of row
structures in table order, and the float similarity score of
`Levenshtein.ratio` becomes an exact rational (2 * LCS / total length, the
normalized indel similarity that function computes).
-/

/-- `decrypt_asset_data` from `asset_loader.py` lines 52-57: bytes at offset
`< 256` pass through, bytes at offset `>= 256` are XORed with
`final_key[i % len(final_key)]`. -/
def decrypt_asset_data (data : List Nat) (finalKey : List Nat) : List Nat :=
  data.enum.map (fun p => if p.1 < 256 then p.2 else p.2 ^^^ (finalKey.getD (p.1 % finalKey.length) 0))

/-- A row of the meta database table `a`: columns `n` (name), `h` (content
hash), `e` (encryption key, possibly NULL). -/
structure ARow where
  n : String
  h : String
  e : Option Int
  deriving DecidableEq

/-- `int(row[1]) if row[1] else 0`: a missing or zero `e` column becomes key 0. -/
def rowKey (e : Option Int) : Int :=
  e.getD 0

/-- `n LIKE ?` with the bound pattern `name_pattern + '%'`: `name` followed by
any suffix (the resolver's names contain no SQL wildcard characters). -/
def likeMatch (pat s : String) : Bool :=
  pat.data.isPrefixOf s.data

/-- `AssetManager.get_asset_info` from `asset_loader.py` lines 448-467: an exact
`n = ?` lookup first; only when it returns no row, a `LIKE name%` lookup
(modelled as a string-prefix test, adequate for names without SQL wildcard
characters); `(None, None)` when both miss.  `fetchone` returns the first row
in table order. -/
def get_asset_info (table : List ARow) (namePattern : String) : Option String × Option Int :=
  match table.find? (fun r => r.n == namePattern) with
  | some r => (some r.h, some (rowKey r.e))
  | none =>
    match table.find? (fun r => likeMatch namePattern r.n) with
    | some r => (some r.h, some (rowKey r.e))
    | none => (none, none)

/-- C4: first 256 bytes unchanged; bytes at offset >= 256 XORed with the
keystream byte at `offset mod len`; double application restores the payload. -/
theorem claim_C4_decrypt (data finalKey : List Nat) (hk : finalKey ≠ [])
    (hlen : 256 < data.length) :
    (∀ i, i < 256 → (decrypt_asset_data data finalKey).get? i = data.get? i) ∧
    (∀ i, 256 ≤ i →
      (decrypt_asset_data data finalKey).get? i =
        (data.get? i).map (fun b => b ^^^ (finalKey.getD (i % finalKey.length) 0))) ∧
    decrypt_asset_data (decrypt_asset_data data finalKey) finalKey = data := by
  have hget : ∀ (l : List Nat) (i : Nat),
      (decrypt_asset_data l finalKey).get? i =
        (l.get? i).map (fun b => if i < 256 then b else b ^^^ (finalKey.getD (i % finalKey.length) 0)) := by
    intro l i
    simp only [decrypt_asset_data, List.get?_map, List.get?_enum]
    cases l.get? i <;> simp
  refine ⟨?_, ?_, ?_⟩
  · intro i hi
    rw [hget]
    cases h : data.get? i <;> simp [hi]
  · intro i hi
    rw [hget]
    cases h : data.get? i <;> simp [Nat.not_lt_of_le hi]
  · apply List.ext_get?
    intro i
    rw [hget, hget]
    cases h : data.get? i <;> by_cases hi : i < 256 <;>
      simp [hi, Nat.xor_assoc, Nat.xor_self, Nat.xor_zero]

/-- Witness for C4 at a concrete 257-byte payload and 1-byte keystream. -/
theorem claim_C4_decrypt_witness :
    (∀ i, i < 256 → (decrypt_asset_data (List.replicate 257 7) [3]).get? i = (List.replicate 257 7).get? i) ∧
    (∀ i, 256 ≤ i →
      (decrypt_asset_data (List.replicate 257 7) [3]).get? i =
        ((List.replicate 257 7).get? i).map (fun b => b ^^^ (([3] : List Nat).getD (i % ([3] : List Nat).length) 0))) ∧
    decrypt_asset_data (decrypt_asset_data (List.replicate 257 7) [3]) [3] = List.replicate 257 7 :=
  claim_C4_decrypt (List.replicate 257 7) [3] (by decide)
    (by rw [List.length_replicate]; norm_num)

/-- C5: exact lookup wins whenever an exact row exists (the LIKE branch is
never consulted); otherwise the first prefix row is returned; otherwise
`(None, None)`. -/
theorem claim_C5_resolve (table : List ARow) (name : String) :
    (∀ r, table.find? (fun r => r.n == name) = some r →
      get_asset_info table name = (some r.h, some (rowKey r.e))) ∧
    (table.find? (fun r => r.n == name) = none →
      ∀ r, table.find? (fun r => likeMatch name r.n) = some r →
        get_asset_info table name = (some r.h, some (rowKey r.e))) ∧
    (table.find? (fun r => r.n == name) = none →
      table.find? (fun r => likeMatch name r.n) = none →
      get_asset_info table name = (none, none)) := by
  refine ⟨?_, ?_, ?_⟩
  · intro r hr
    simp [get_asset_info, hr]
  · intro hnone r hr
    simp [get_asset_info, hnone, hr]
  · intro h1 h2
    simp [get_asset_info, h1, h2]

/-- Witness for C5: a table whose first row is a proper prefix extension of
"X" and whose second row is the exact name "X"; the exact row is returned.
A second table with only the prefix row exercises the fallback, and a third
name misses both. -/
theorem claim_C5_resolve_witness :
    get_asset_info [⟨"Xsuffix", "h1", some 7⟩, ⟨"X", "h2", none⟩] "X" = (some "h2", some 0) ∧
    get_asset_info [⟨"Xsuffix", "h1", some 7⟩] "X" = (some "h1", some 7) ∧
    get_asset_info [⟨"Xsuffix", "h1", some 7⟩] "Y" = (none, none) := by
  refine ⟨?_, ?_, ?_⟩
  · exact (claim_C5_resolve [⟨"Xsuffix", "h1", some 7⟩, ⟨"X", "h2", none⟩] "X").1 ⟨"X", "h2", none⟩ (by decide)
  · exact (claim_C5_resolve [⟨"Xsuffix", "h1", some 7⟩] "X").2.1 (by decide) ⟨"Xsuffix", "h1", some 7⟩ (by decide)
  · exact (claim_C5_resolve [⟨"Xsuffix", "h1", some 7⟩] "Y").2.2 (by decide) (by decide)

/-- A choice entry of a text block (`choices` list items are Python dicts;
every field is optional). -/
structure BChoice where
  jpText : Option String
  enText : Option String
  nextBlock : Option Int
  differenceFlag : Option Int
  deriving DecidableEq

/-- A colored-text entry of a story block. -/
structure BColor where
  jpText : Option String
  enText : Option String
  deriving DecidableEq

/-- A text block: the union of the dict keys the extraction walkers emit
(story, race, lyrics, UI animation).  `none` = key absent. -/
structure Block where
  blockIndex : Option Int
  pathId : Option Int
  jpName : Option String
  enName : Option String
  jpText : Option String
  enText : Option String
  voiceIdx : Option Int
  cueSheet : Option Int
  choices : Option (List BChoice)
  coloredText : Option (List BColor)
  nextBlock : Option Int
  differenceFlag : Option Int
  time : Option String
  motionIndex : Option Int
  textIndex : Option Int
  motionName : Option String
  objectName : Option String
  deriving DecidableEq

/-- A block with every key absent. -/
def Block.empty : Block :=
  ⟨none, none, none, none, none, none, none, none, none, none, none, none, none, none, none, none, none⟩

/-- The persisted document (`extracted_data` / workspace JSON). -/
structure Doc where
  assetName : Option String
  assetType : Option String
  groupName : Option String
  title : Option String
  bundleHashes : Option String
  textBlocks : List Block
  deriving DecidableEq

/-- A document with no metadata and no blocks. -/
def Doc.empty : Doc :=
  ⟨none, none, none, none, none, []⟩

/-- Longest-common-subsequence length with a structural fuel argument
(`fuel = |a| + |b|` always suffices), so that the kernel can evaluate it. -/
def lcsFuel : Nat → List Char → List Char → Nat
  | 0, _, _ => 0
  | _ + 1, [], _ => 0
  | _ + 1, _ :: _, [] => 0
  | n + 1, a :: as_, b :: bs_ =>
    if a = b then 1 + lcsFuel n as_ bs_
    else max (lcsFuel n (a :: as_) bs_) (lcsFuel n as_ (b :: bs_))

/-- LCS length of two strings. -/
def lcsLen (a b : String) : Nat :=
  lcsFuel (a.data.length + b.data.length) a.data b.data

/-- `Levenshtein.ratio` as an exact rational: the normalized indel similarity
`(|a| + |b| - dist) / (|a| + |b|) = 2 * LCS(a,b) / (|a| + |b|)`, and `1` when
both strings are empty (`mkRat` is the normalized fraction constructor). -/
def similarity (a b : String) : ℚ :=
  if a.length + b.length = 0 then 1
  else mkRat (2 * lcsLen a b) (a.length + b.length)

/-- Python's `str.strip()`: whitespace trimmed at both ends. -/
def pyStrip (s : String) : String :=
  ⟨(((s.data.dropWhile Char.isWhitespace).reverse).dropWhile Char.isWhitespace).reverse⟩

/-- The dict comprehension of `merge_translations` (extractor.py line 34):
`{block["jpText"].strip(): block for block in old_blocks if block.get("jpText")}`
followed by `.get(key)`.  Later blocks overwrite earlier ones with the same
trimmed key, so the lookup returns the last block whose non-empty trimmed
source text equals the key. -/
def oldTextLookup (oldBlocks : List Block) (key : String) : Option Block :=
  oldBlocks.reverse.find? (fun b => (b.jpText.getD "" != "") && (pyStrip (b.jpText.getD "") == key))

/-- Python's `max(xs, key=k, default=None)`: the first element whose key no
later element strictly exceeds. -/
def pyMax (key : Block → ℚ) : List Block → Option Block
  | [] => none
  | b :: bs => some (bs.foldl (fun best x => if key x > key best then x else best) b)

/-- The per-choice copy loop of `merge_translations` (extractor.py lines
55-57): positions beyond the old choice list are left unchanged. -/
def copyChoices : List BChoice → List BChoice → List BChoice
  | [], _ => []
  | nc :: ncs, [] => nc :: copyChoices ncs []
  | nc :: ncs, oc :: ocs => { nc with enText := some (oc.enText.getD "") } :: copyChoices ncs ocs

/-- The field-copy part of `merge_translations` (extractor.py lines 51-57):
copy the candidate's `enText`, its `enName` when the key is present, and the
choice texts positionally when both blocks carry a `choices` key. -/
def copyTranslated (best nb : Block) : Block :=
  let b1 := { nb with enText := some (best.enText.getD "") }
  let b2 := if best.enName.isSome then { b1 with enName := some (best.enName.getD "") } else b1
  match nb.choices, best.choices with
  | some ncs, some ocs => { b2 with choices := some (copyChoices ncs ocs) }
  | _, _ => b2

/-- The per-block body of the `merge_translations` loop (extractor.py lines
36-57).  The source's similarity threshold literal `0.85` is written as the
exact rational `mkRat 17 20`. -/
def mergeBlock (oldBlocks : List Block) (nb : Block) : Block :=
  let jp := nb.jpText.getD ""
  if jp = "" then nb
  else
    let best :=
      match oldTextLookup oldBlocks (pyStrip jp) with
      | some b => some b
      | none => pyMax (fun ob => similarity jp (ob.jpText.getD "")) oldBlocks
    match best with
    | none => nb
    | some c => if similarity jp (c.jpText.getD "") > mkRat 17 20 then copyTranslated c nb else nb

/-- `merge_translations` from `extractor.py` lines 22-60.  The second argument
models the optional existing workspace file: `none` when the path is absent or
the file does not exist (the function then returns `new_data` unchanged). -/
def merge_translations (newData : Doc) (oldData : Option Doc) : Doc :=
  match oldData with
  | none => newData
  | some old =>
    { newData with textBlocks := newData.textBlocks.map (mergeBlock old.textBlocks) }

/-- Modelled from the spec wording of C2: the exact-match index "built once
over the existing blocks", as an association list populated block by block
(later blocks shadow earlier ones, as dict insertion does). -/
def specExactIndex (oldBlocks : List Block) : List (String × Block) :=
  oldBlocks.foldl
    (fun m b => if b.jpText.getD "" ≠ "" then (pyStrip (b.jpText.getD ""), b) :: m else m) []

/-- Modelled from the spec wording of C2: looking a trimmed source text up in
the exact-match index. -/
def specExactLookup (oldBlocks : List Block) (key : String) : Option Block :=
  ((specExactIndex oldBlocks).find? (fun p => p.1 == key)).map Prod.snd

/-- Modelled from the spec wording of C2: copy each translated choice text
positionally, index-aligned, only up to the shorter of the two choice lists. -/
def specCopyChoices (ncs ocs : List BChoice) : List BChoice :=
  (List.zipWith (fun nc oc => { nc with enText := some (oc.enText.getD "") }) ncs ocs) ++
    ncs.drop ocs.length

/-- Modelled from the spec wording of C2: copy the candidate's translated
text, its translated speaker name when present, and the translated choice
texts positionally. -/
def specCopyTranslated (best nb : Block) : Block :=
  let b1 := { nb with enText := some (best.enText.getD "") }
  let b2 := if best.enName.isSome then { b1 with enName := some (best.enName.getD "") } else b1
  match nb.choices, best.choices with
  | some ncs, some ocs => { b2 with choices := some (specCopyChoices ncs ocs) }
  | _, _ => b2

/-- Modelled from the spec wording of C2: for a new block with non-empty
source text, take the exact-index candidate first, otherwise the existing
block of maximum similarity; copy the translated fields iff the candidate's
similarity exceeds 0.85; otherwise leave the block untouched. -/
def specMergeBlock (oldBlocks : List Block) (nb : Block) : Block :=
  if nb.jpText.getD "" = "" then nb
  else
    let jp := nb.jpText.getD ""
    let candidate :=
      match specExactLookup oldBlocks (pyStrip jp) with
      | some b => some b
      | none => pyMax (fun ob => similarity jp (ob.jpText.getD "")) oldBlocks
    match candidate with
    | none => nb
    | some c => if similarity jp (c.jpText.getD "") > mkRat 17 20 then specCopyTranslated c nb else nb

theorem specExactIndex_find (key : String) (oldBlocks : List Block) :
    ∀ m : List (String × Block),
      (((oldBlocks.foldl
          (fun m b => if b.jpText.getD "" ≠ "" then (pyStrip (b.jpText.getD ""), b) :: m else m) m)).find?
            (fun p => p.1 == key)).map Prod.snd =
        match oldBlocks.reverse.find?
            (fun b => (b.jpText.getD "" != "") && (pyStrip (b.jpText.getD "") == key)) with
        | some b => some b
        | none => (m.find? (fun p => p.1 == key)).map Prod.snd := by
  induction oldBlocks using List.reverseRecOn with
  | nil => intro m; simp
  | append_singleton t b ih =>
    intro m
    rw [List.foldl_append]
    simp only [List.foldl_cons, List.foldl_nil, List.reverse_append, List.reverse_singleton,
      List.singleton_append]
    by_cases hb : b.jpText.getD "" = ""
    · rw [if_neg (fun hcon => hcon hb)]
      rw [List.find?_cons_of_neg _ (by simp [hb])]
      exact ih m
    · rw [if_pos hb]
      by_cases hkey : pyStrip (b.jpText.getD "") = key
      · rw [List.find?_cons_of_pos _ (by simp [hb, hkey])]
        rw [List.find?_cons_of_pos _ (by simp [hb, hkey])]
        simp
      · rw [List.find?_cons_of_neg _ (by simp [hkey])]
        rw [List.find?_cons_of_neg _ (by simp [hkey])]
        exact ih m

theorem specExactLookup_eq (oldBlocks : List Block) (key : String) :
    specExactLookup oldBlocks key = oldTextLookup oldBlocks key := by
  unfold specExactLookup specExactIndex oldTextLookup
  rw [specExactIndex_find key oldBlocks []]
  cases oldBlocks.reverse.find?
      (fun b => (b.jpText.getD "" != "") && (pyStrip (b.jpText.getD "") == key)) <;> simp

theorem copyChoices_eq_spec (ncs ocs : List BChoice) :
    copyChoices ncs ocs = specCopyChoices ncs ocs := by
  induction ncs generalizing ocs with
  | nil => cases ocs <;> simp [copyChoices, specCopyChoices]
  | cons nc ncs ih =>
    cases ocs with
    | nil =>
      simp only [copyChoices, specCopyChoices, List.zipWith_nil_right, List.drop_zero,
        List.nil_append, List.cons.injEq, true_and]
      have := ih []
      simpa [specCopyChoices] using this
    | cons oc ocs =>
      simp [copyChoices, specCopyChoices, ih ocs]

theorem copyTranslated_eq_spec (best nb : Block) :
    copyTranslated best nb = specCopyTranslated best nb := by
  unfold copyTranslated specCopyTranslated
  cases nb.choices <;> cases best.choices <;> simp [copyChoices_eq_spec]

/-- C2: `merge_translations` is exactly the spec's per-block merge: exact
trimmed match via the index built once over the existing blocks, otherwise the
best-similarity block; translated text, speaker name (when present) and
positional choice texts copied iff the candidate's similarity exceeds 0.85;
otherwise the block (and so its empty translated text) is left unchanged. -/
theorem mergeBlock_eq_spec (oldBlocks : List Block) (nb : Block) :
    mergeBlock oldBlocks nb = specMergeBlock oldBlocks nb := by
  simp only [mergeBlock, specMergeBlock]
  rw [specExactLookup_eq]
  by_cases hjp : nb.jpText.getD "" = ""
  · simp [hjp]
  · simp only [hjp, if_false]
    cases hbest : oldTextLookup oldBlocks (pyStrip (nb.jpText.getD "")) with
    | none =>
      cases pyMax (fun ob => similarity (nb.jpText.getD "") (ob.jpText.getD "")) oldBlocks with
      | none => rfl
      | some c => simp [copyTranslated_eq_spec]
    | some c => simp [copyTranslated_eq_spec]

theorem claim_C2_merge (newData : Doc) (old : Doc) :
    merge_translations newData (some old) =
      { newData with textBlocks := newData.textBlocks.map (specMergeBlock old.textBlocks) } ∧
    merge_translations newData none = newData := by
  constructor
  · show ({ newData with textBlocks := newData.textBlocks.map (mergeBlock old.textBlocks) } : Doc) = _
    congr 1
    exact List.map_congr_left (fun nb _ => mergeBlock_eq_spec old.textBlocks nb)
  · rfl

theorem lcsFuel_self (l : List Char) : ∀ n, l.length ≤ n → lcsFuel n l l = l.length := by
  induction l with
  | nil => intro n _; cases n <;> rfl
  | cons a t ih =>
    intro n hn
    cases n with
    | zero => simp at hn
    | succ m =>
      have h2 := ih m (by simpa using hn)
      simp only [lcsFuel, if_pos, List.length_cons, h2]
      omega

theorem similarity_self (s : String) : similarity s s = 1 := by
  unfold similarity
  by_cases h : s.length + s.length = 0
  · simp [h]
  · have hlen : s.length ≠ 0 := by omega
    have hl : lcsLen s s = s.length := by
      unfold lcsLen
      exact lcsFuel_self s.data (s.data.length + s.data.length) (by omega)
    rw [if_neg h, hl, Rat.mkRat_eq_div]
    push_cast
    field_simp
    ring

theorem find?_reverse_unique {α} (p : α → Bool) (R : α → α → Prop) :
    ∀ l : List α, l.Pairwise R → ∀ b, b ∈ l → p b = true →
      (∀ x y, p x = true → p y = true → R x y → False) →
      l.reverse.find? p = some b := by
  intro l
  induction l using List.reverseRecOn with
  | nil => intro _ b hb; simp at hb
  | append_singleton t a ih =>
    intro hp b hb hpb hR
    rw [List.reverse_append, List.reverse_singleton, List.singleton_append]
    rw [List.pairwise_append] at hp
    obtain ⟨hpt, -, hta⟩ := hp
    by_cases hpa : p a = true
    · rw [List.find?_cons_of_pos _ hpa]
      rcases List.mem_append.mp hb with hbt | hba
      · exact absurd (hR b a hpb hpa (hta b hbt a (List.mem_singleton_self a))) (fun f => f)
      · rw [List.mem_singleton] at hba
        rw [hba]
    · rw [List.find?_cons_of_neg _ (by simp [hpa])]
      rcases List.mem_append.mp hb with hbt | hba
      · exact ih hpt b hbt hpb hR
      · rw [List.mem_singleton] at hba
        subst hba
        exact absurd hpb hpa

theorem copyChoices_self (cs : List BChoice) (h : ∀ c ∈ cs, c.enText.isSome = true) :
    copyChoices cs cs = cs := by
  induction cs with
  | nil => rfl
  | cons c cs ih =>
    have hc : c.enText.isSome = true := h c (List.mem_cons_self c cs)
    have hcs : copyChoices cs cs = cs := ih (fun x hx => h x (List.mem_cons_of_mem c hx))
    cases hce : c.enText with
    | none => rw [hce] at hc; simp at hc
    | some v =>
      simp only [copyChoices, hcs, List.cons.injEq, and_true]
      rw [hce]
      cases c
      simp_all

theorem copyTranslated_self (b : Block) (hen : b.enText.isSome = true)
    (hch : (b.choices.getD []).all (fun c => c.enText.isSome) = true) :
    copyTranslated b b = b := by
  obtain ⟨bi, pid, jn, en, jt, et, vi, csh, ch, ct, nx, df, tm, mi, ti, mn, obn⟩ := b
  cases et with
  | none => simp at hen
  | some v =>
    cases en with
    | none =>
      cases ch with
      | none => simp [copyTranslated]
      | some cs =>
        simp only [Option.getD_some] at hch
        simp [copyTranslated, copyChoices_self cs (List.all_eq_true.mp hch)]
    | some w =>
      cases ch with
      | none => simp [copyTranslated]
      | some cs =>
        simp only [Option.getD_some] at hch
        simp [copyTranslated, copyChoices_self cs (List.all_eq_true.mp hch)]

theorem mergeBlock_self (bs : List Block) (b : Block) (hb : b ∈ bs)
    (hen : b.enText.isSome = true)
    (hch : (b.choices.getD []).all (fun c => c.enText.isSome) = true)
    (hdist : bs.Pairwise (fun a c => a.jpText.getD "" ≠ "" → c.jpText.getD "" ≠ "" →
      pyStrip (a.jpText.getD "") ≠ pyStrip (c.jpText.getD ""))) :
    mergeBlock bs b = b := by
  by_cases hjp : b.jpText.getD "" = ""
  · simp [mergeBlock, hjp]
  · have hlook : oldTextLookup bs (pyStrip (b.jpText.getD "")) = some b := by
      unfold oldTextLookup
      apply find?_reverse_unique _ _ bs hdist b hb
      · simp [hjp]
      · intro x y hx hy hR
        simp only [Bool.and_eq_true, bne_iff_ne, beq_iff_eq] at hx hy
        exact hR hx.1 hy.1 (hx.2.trans hy.2.symm)
    simp only [mergeBlock, hlook]
    rw [if_neg hjp, similarity_self, if_pos (by decide)]
    exact copyTranslated_self b hen hch

/-- C7 (amended): merging a document against itself reproduces identical
translated text for every block, provided the blocks carry their translated
fields (as every extracted or saved document does) and no two blocks with
non-empty source text share the same trimmed source text.  (With duplicated
trimmed source texts the exact-match index keeps only the last duplicate, so
an earlier duplicate can receive the later one's translation — see the
counterexample.) -/
theorem claim_C7_amended (d : Doc)
    (hwf : d.textBlocks.all
      (fun b => b.enText.isSome && (b.choices.getD []).all (fun c => c.enText.isSome)) = true)
    (hdist : d.textBlocks.Pairwise (fun a c => a.jpText.getD "" ≠ "" → c.jpText.getD "" ≠ "" →
      pyStrip (a.jpText.getD "") ≠ pyStrip (c.jpText.getD ""))) :
    merge_translations d (some d) = d := by
  have h1 : d.textBlocks.map (mergeBlock d.textBlocks) = d.textBlocks.map (fun b => b) := by
    apply List.map_congr_left
    intro b hb
    have hw := List.all_eq_true.mp hwf b hb
    simp only [Bool.and_eq_true] at hw
    exact mergeBlock_self d.textBlocks b hb hw.1 hw.2 hdist
  show ({ d with textBlocks := d.textBlocks.map (mergeBlock d.textBlocks) } : Doc) = d
  rw [h1, List.map_id']

/-- Two blocks whose source texts trim to the same key "abc". -/
def c7BlockA : Block := { Block.empty with jpText := some "abc", enText := some "X" }

/-- The later duplicate; it wins the exact-match index slot for "abc". -/
def c7BlockB : Block := { Block.empty with jpText := some "abc ", enText := some "Y" }

/-- A document merged against itself below. -/
def c7Doc : Doc := { Doc.empty with textBlocks := [c7BlockA, c7BlockB] }

/-- C7 counterexample: merging this two-block document against itself does not
reproduce the translated text: block 0's translation changes from "X" to "Y"
(both blocks trim to the key "abc"; the index keeps the last one, and
`similarity "abc" "abc "` = 6/7 > 0.85). -/
theorem claim_C7_counterexample :
    merge_translations c7Doc (some c7Doc) ≠ c7Doc ∧
    (merge_translations c7Doc (some c7Doc)).textBlocks.map (fun b => b.enText) =
      [some "Y", some "Y"] := by
  constructor
  · decide
  · decide

/-- A self-merge input with pairwise distinct trimmed source texts. -/
def c7wDoc : Doc :=
  { Doc.empty with textBlocks :=
      [{ Block.empty with jpText := some "hello", enText := some "Hi" },
       { Block.empty with jpText := some "bye", enText := some "Bye" }] }

/-- Witness for the amended C7 at a concrete document. -/
theorem claim_C7_amended_witness : merge_translations c7wDoc (some c7wDoc) = c7wDoc :=
  claim_C7_amended c7wDoc (by decide) (by decide)

/-- A raw `ChoiceDataList` entry of a `TextClip` typetree; `none` models an
entry that is not a dict (skipped by the `isinstance` guard). -/
inductive RawChoice where
  | junk
  | entry (text : Option String) (nextBlock : Option Int) (differenceFlag : Option Int)
  deriving DecidableEq

/-- A raw `ColorTextInfoList` entry; `none`-like `junk` models a non-dict. -/
inductive RawColor where
  | junk
  | entry (text : Option String)
  deriving DecidableEq

/-- The fields `parse_story_timeline` reads from a `TextClip` typetree via
`.get`; `none` = key absent (or `None`). -/
structure TextClip where
  name : Option String
  cueId : Option Int
  differenceFlag : Option Int
  text : Option String
  voiceSheetId : Option Int
  nextBlock : Option Int
  choiceDataList : List RawChoice
  colorTextInfoList : List RawColor
  deriving DecidableEq

/-- One `BlockList` entry as seen by the structural guard of
`parse_story_timeline` (lines 95-106): either malformed (not a dict, no
usable `TextTrack`/`ClipList`, or no path id) or a well-formed entry whose
first clip carries `pathId`. -/
inductive TLEntry where
  | malformed
  | clip (pathId : Int)
  deriving DecidableEq

/-- The data `parse_story_timeline` consumes: the timeline MonoBehaviour's
`Title` and `BlockList`, the `objects_by_path_id` table (each entry `none`
when `read_typetree` fails or returns a non-dict), and the category-6
character-name table. -/
structure StoryPayload where
  title : Option String
  blockList : List TLEntry
  clips : List (Int × Option TextClip)
  charNames : List (Nat × String)
  deriving DecidableEq

/-- `objects_by_path_id.get(path_id)` followed by `read_typetree`: the last
binding wins (dict semantics), and a failed or non-dict typetree is `none`. -/
def lookupClip (p : StoryPayload) (pathId : Int) : Option TextClip :=
  ((p.clips.filter (fun c => c.1 == pathId)).getLast?).bind (fun c => c.2)

/-- `char_names.get(idx)` (dict built from the category-6 rows). -/
def lookupCharName (p : StoryPayload) (idx : Nat) : Option String :=
  ((p.charNames.filter (fun c => c.1 == idx)).getLast?).map (fun c => c.2)

/-- `jp_name.isdigit()` and `int(jp_name)` combined (for ASCII digits):
`some` of the numeric value exactly on non-empty all-digit strings. -/
def pyIsDigitToNat (s : String) : Option Nat :=
  if s.data ≠ [] ∧ s.data.all Char.isDigit then
    some (s.data.foldl (fun acc ch => acc * 10 + (ch.toNat - 48)) 0)
  else none

/-- Lines 119-120: `char_names.get(int(jp_name)) if jp_name.isdigit() else
jp_name`, then `looked_up_name or jp_name`. -/
def storySpeakerName (p : StoryPayload) (jpName : String) : String :=
  let looked : Option String :=
    match pyIsDigitToNat jpName with
    | some n => lookupCharName p n
    | none => some jpName
  match looked with
  | some s => if s = "" then jpName else s
  | none => jpName

/-- Lines 125-129: the per-block cue offset (`1` iff the difference flag is 2). -/
def storyLocalCueOffset (c : TextClip) : Int :=
  if c.differenceFlag.getD 0 = 2 then 1 else 0

/-- Lines 122-132: the renumbered cue id (`final_cue_id`): original plus local
plus global offset when the original is present and not -1, the original
otherwise.  The walker computes this value and then discards it. -/
def story_final_cue_id (c : TextClip) (g : Int) : Option Int :=
  match c.cueId with
  | none => none
  | some v => if v ≠ -1 then some (v + storyLocalCueOffset c + g) else some v

/-- Lines 134-135: a difference flag of 4 on a block with a usable cue id
increments the global offset for subsequent blocks. -/
def story_cue_step (c : TextClip) (g : Int) : Int :=
  if c.differenceFlag.getD 0 = 4 ∧ c.cueId.isSome ∧ c.cueId ≠ some (-1) then g + 1 else g

/-- The `ChoiceDataList` loop (lines 152-158). -/
def storyChoices (l : List RawChoice) : List BChoice :=
  l.filterMap (fun rc =>
    match rc with
    | .junk => none
    | .entry t nb df => some ⟨some (t.getD ""), some "", some (nb.getD 0), some (df.getD 0)⟩)

/-- The `ColorTextInfoList` loop (lines 160-164). -/
def storyColors (l : List RawColor) : List BColor :=
  l.filterMap (fun rc =>
    match rc with
    | .junk => none
    | .entry t => some ⟨some (t.getD ""), some ""⟩)

/-- The `block_data` dict literal (lines 137-150): note `voiceIdx` is the raw
`text_clip_data.get("CueId")`, not the computed `final_cue_id`. -/
def storyBlockData (p : StoryPayload) (i : Nat) (pathId : Int) (c : TextClip) : Block :=
  { Block.empty with
      blockIndex := some (i : Int)
      pathId := some pathId
      jpName := some (storySpeakerName p (c.name.getD ""))
      enName := some ""
      jpText := some (c.text.getD "")
      enText := some ""
      voiceIdx := c.cueId
      cueSheet := c.voiceSheetId
      choices := some (storyChoices c.choiceDataList)
      coloredText := some (storyColors c.colorTextInfoList)
      nextBlock := some (c.nextBlock.getD 0)
      differenceFlag := some (c.differenceFlag.getD 0) }

/-- One iteration of the `BlockList` loop: `none` when the block is skipped
(malformed entry, or no clip object / unusable typetree for its path id). -/
def storyBlockOf (p : StoryPayload) (i : Nat) (g : Int) (e : TLEntry) : Option (Block × Int) :=
  match e with
  | .malformed => none
  | .clip pathId =>
    match lookupClip p pathId with
    | none => none
    | some c => some (storyBlockData p i pathId c, story_cue_step c g)

/-- The `BlockList` loop of `parse_story_timeline` (lines 94-171), carrying
the running block position and the global cue offset. -/
def storyWalk (p : StoryPayload) : Nat → Int → List TLEntry → List Block
  | _, _, [] => []
  | i, g, e :: rest =>
    match storyBlockOf p i g e with
    | none => storyWalk p (i + 1) g rest
    | some (blk, g') => blk :: storyWalk p (i + 1) g' rest

/-- Lines 86-88: `Title` is kept when present, non-empty and not `"0"`. -/
def storyTitle (t : Option String) : Option String :=
  match t with
  | none => none
  | some s => if s ≠ "" ∧ s ≠ "0" then some s else none

/-- `parse_story_timeline` from `asset_loader.py` lines 59-173.  `none` models
the `return None` paths (no environment / no timeline MonoBehaviour); the
`BlockList` loop starts at `block_list[1:]` with `block_index = block_idx - 1`. -/
def parse_story_timeline : Option StoryPayload → Option Doc
  | none => none
  | some p =>
    some { Doc.empty with
            title := storyTitle p.title
            textBlocks := storyWalk p 0 0 (p.blockList.drop 1) }

/-- The clips that survive the walk's skip rules, in block order. -/
def storyKeptClips (p : StoryPayload) : List TextClip :=
  (p.blockList.drop 1).filterMap (fun e =>
    match e with
    | .malformed => none
    | .clip pathId => lookupClip p pathId)

/-- The positions (0-based within `block_list[1:]`) of the kept blocks. -/
def storyKeptPositionsAux (p : StoryPayload) : Nat → List TLEntry → List Nat
  | _, [] => []
  | i, e :: rest =>
    match e with
    | .malformed => storyKeptPositionsAux p (i + 1) rest
    | .clip pathId =>
      match lookupClip p pathId with
      | none => storyKeptPositionsAux p (i + 1) rest
      | some _ => i :: storyKeptPositionsAux p (i + 1) rest

/-- The kept positions of a payload's block list. -/
def storyKeptPositions (p : StoryPayload) : List Nat :=
  storyKeptPositionsAux p 0 (p.blockList.drop 1)

/-- The sequence of (discarded) `final_cue_id` values in block order, with
the global offset threaded by `story_cue_step`. -/
def storyCueFold (g : Int) : List TextClip → List (Option Int)
  | [] => []
  | c :: cs => story_final_cue_id c g :: storyCueFold (story_cue_step c g) cs

/-- The renumbered cue ids of a payload's kept blocks. -/
def story_final_cue_ids (p : StoryPayload) : List (Option Int) :=
  storyCueFold 0 (storyKeptClips p)

/-- One `textData` entry of a race story: `junk` models an entry that is not
a dict or has no "text" key; `item` carries `.get("key")` and `.get("text")`. -/
inductive RaceEntry where
  | junk
  | item (key : Option Int) (text : Option String)
  deriving DecidableEq

/-- The block built for one race `textData` item (lines 184-189):
`block_index` is the item's own "key" value, not a running position. -/
def raceBlockOf : RaceEntry → Option Block
  | .junk => none
  | .item k t => some { Block.empty with blockIndex := k, jpText := t, enText := some "" }

/-- `parse_race_story` from `asset_loader.py` lines 175-193: the first
MonoBehaviour whose typetree has a `textData` list yields the document (even
when empty); `none` on an object models a missing `textData` or a read
failure (both continue the scan). -/
def parse_race_story : List (Option (List RaceEntry)) → Option Doc
  | [] => none
  | none :: rest => parse_race_story rest
  | (some entries) :: _ =>
    some { Doc.empty with textBlocks := entries.filterMap raceBlockOf }

/-- Split a character list at a separator (Python `str.split(sep)` semantics:
`""` splits to `[""]`). -/
def splitOnChar (sep : Char) : List Char → List String
  | [] => [""]
  | ch :: rest =>
    let r := splitOnChar sep rest
    if ch = sep then "" :: r
    else
      match r with
      | [] => [⟨[ch]⟩]
      | s :: ss => ⟨ch :: s.data⟩ :: ss

/-- One line through `csv.reader(lines, skipinitialspace=True)` for unquoted
rows: split at commas, spaces immediately after a delimiter dropped.  (The
`csv` module's quoting rules are out of scope; the inputs proved about here
contain no quotes.) -/
def csvSimpleRow (line : String) : List String :=
  match splitOnChar ',' line.data with
  | [] => []
  | f :: fs => f :: fs.map (fun x => ⟨x.data.dropWhile (fun ch => ch == ' ')⟩)

/-- The row loop of `parse_lyrics` (lines 233-240).  Empty rows and rows with
an empty first field are skipped; a non-empty single-field row makes
`time, text, *_ = row` raise `ValueError`, aborting this TextAsset (`none`). -/
def lyricsBlocks : List (List String) → Option (List Block)
  | [] => some []
  | row :: rest =>
    match row with
    | [] => lyricsBlocks rest
    | f :: fields =>
      if f = "" then lyricsBlocks rest
      else
        match fields with
        | [] => none
        | text :: _ =>
          (lyricsBlocks rest).map (fun bs =>
            { Block.empty with time := some f, jpText := some (pyStrip text), enText := some "" } :: bs)

/-- Lines 229-240 for one TextAsset script: drop the 2-line header (the
`splitlines()[2:]`; line splitting is modelled as splitting at newline
characters) and run the row loop. -/
def lyricsFromScript (s : String) : Option (List Block) :=
  lyricsBlocks (((splitOnChar '\n' s.data).drop 2).map csvSimpleRow)

/-- `parse_lyrics` from `asset_loader.py` lines 215-249: scan the TextAssets
(each given by its `m_Script`, `none` when absent); the first one yielding a
non-empty block list is returned; a `ValueError` or an empty result falls
through to the next asset; `none` when no asset qualifies. -/
def parse_lyrics : List (Option String) → Option Doc
  | [] => none
  | none :: rest => parse_lyrics rest
  | (some s) :: rest =>
    if s = "" then parse_lyrics rest
    else
      match lyricsFromScript s with
      | some (b :: bs) => some { Doc.empty with textBlocks := b :: bs }
      | _ => parse_lyrics rest

theorem length_filter_le_of_imp {α} (p q : α → Bool) (l : List α)
    (h : ∀ x, q x = true → p x = true) : (l.filter q).length ≤ (l.filter p).length := by
  induction l with
  | nil => simp
  | cons a t ih =>
    by_cases hq : q a = true
    · rw [List.filter_cons_of_pos hq, List.filter_cons_of_pos (h a hq)]
      simpa using ih
    · rw [List.filter_cons_of_neg (by simp [hq])]
      by_cases hp : p a = true
      · rw [List.filter_cons_of_pos hp]
        exact Nat.le_succ_of_le ih
      · rw [List.filter_cons_of_neg (by simp [hp])]
        exact ih

theorem length_filter_lt_of_mem {α} (p q : α → Bool) (l : List α)
    (himp : ∀ x, q x = true → p x = true) (a : α) (ha : a ∈ l) (hpa : p a = true)
    (hqa : q a = false) : (l.filter q).length < (l.filter p).length := by
  induction l with
  | nil => simp at ha
  | cons b t ih =>
    rcases List.mem_cons.mp ha with rfl | hat
    · rw [List.filter_cons_of_pos hpa, List.filter_cons_of_neg (by simp [hqa])]
      exact Nat.lt_succ_of_le (length_filter_le_of_imp p q t himp)
    · by_cases hqb : q b = true
      · rw [List.filter_cons_of_pos hqb, List.filter_cons_of_pos (himp b hqb)]
        simpa using ih hat
      · rw [List.filter_cons_of_neg (by simp [hqb])]
        by_cases hpb : p b = true
        · rw [List.filter_cons_of_pos hpb]
          exact Nat.lt_succ_of_lt (ih hat)
        · rw [List.filter_cons_of_neg (by simp [hpb])]
          exact ih hat

theorem mem_of_getLast? {α} : ∀ {l : List α} {a : α}, l.getLast? = some a → a ∈ l
  | [], _, h => by simp at h
  | [b], a, h => by
    simp only [List.getLast?_singleton, Option.some.injEq] at h
    simp [h]
  | b :: c :: t, a, h => by
    rw [List.getLast?_cons_cons] at h
    exact List.mem_cons_of_mem b (mem_of_getLast? h)

/-- A `_textParamList` entry; `none` models a falsy entry. -/
structure TextParam where
  objectName : Option String
  text : Option String
  deriving DecidableEq

/-- One `_motionParameterList` entry of the UI-animation MonoBehaviour.
Motion ids are modelled as `Nat` with `0` standing for a falsy/absent id
(`if not motion_id` and `if child_motion_id` treat `None` and `0` alike), and
`objectParamList`/`planeParamList` are abstracted to the `_childMotionID`
values of their items. -/
structure MotionParam where
  mid : Nat
  mname : Option String
  textParamList : List (Option TextParam)
  objectParamList : List Nat
  planeParamList : List Nat
  deriving DecidableEq

/-- `motion_map.get(id)`: last binding wins. -/
def motionMapFind (params : List MotionParam) (i : Nat) : Option MotionParam :=
  (params.filter (fun m => m.mid == i)).getLast?

/-- `motion_index_map.get(id, -1)`: the index of the last list entry with this
id, `-1` when absent. -/
def motionIdxFind (params : List MotionParam) (i : Nat) : Int :=
  match (params.enum.filter (fun p => p.2.mid == i)).getLast? with
  | none => -1
  | some p => (p.1 : Int)

/-- The direct text blocks of one motion (lines 377-387): entries that are
truthy and whose text is non-empty after strip. -/
def uaTexts (idx : Int) (mp : MotionParam) : List Block :=
  mp.textParamList.enum.filterMap (fun p =>
    match p.2 with
    | none => none
    | some tp =>
      if pyStrip (tp.text.getD "") ≠ "" then
        some { Block.empty with
                jpText := tp.text
                enText := some ""
                motionIndex := some idx
                textIndex := some (p.1 : Int)
                motionName := mp.mname
                objectName := tp.objectName }
      else none)

/-- The child ids a motion recurses into (lines 389-393):
`_objectParamList` then `_planeParamList`. -/
def uaChildren (mp : MotionParam) : List Nat :=
  mp.objectParamList ++ mp.planeParamList

/-- `find_text_recursively` (lines 366-393) as an explicit-stack depth-first
walk, preserving the recursion's visit order: pop an id; skip it when falsy
or already in `processed_motion_ids`; otherwise mark it processed, and when
it is in the motion map emit its text blocks and push its children.  The
stack-membership invariant `hs` (every pending id is in `allIds`) makes the
termination measure — ids not yet processed, then stack length — decrease. -/
def uaGo (params : List MotionParam) (allIds : List Nat)
    (hall : ∀ mp ∈ params, ∀ c ∈ uaChildren mp, c ∈ allIds) :
    (stack : List Nat) → (∀ x ∈ stack, x ∈ allIds) →
    List Nat → List Block → List Nat × List Block
  | [], _, processed, acc => (processed, acc)
  | id_ :: rest, hs, processed, acc =>
    if hskip : id_ = 0 ∨ id_ ∈ processed then
      uaGo params allIds hall rest (fun x hx => hs x (List.mem_cons_of_mem _ hx)) processed acc
    else
      match hfind : motionMapFind params id_ with
      | none =>
        uaGo params allIds hall rest (fun x hx => hs x (List.mem_cons_of_mem _ hx))
          (id_ :: processed) acc
      | some mp =>
        uaGo params allIds hall (uaChildren mp ++ rest)
          (fun x hx => (List.mem_append.mp hx).elim
            (fun hc => hall mp (List.mem_of_mem_filter (mem_of_getLast? hfind)) x hc)
            (fun hr => hs x (List.mem_cons_of_mem _ hr)))
          (id_ :: processed) (acc ++ uaTexts (motionIdxFind params id_) mp)
  termination_by stack _ processed _ =>
    ((allIds.filter (fun x => x ∉ processed)).length, stack.length)
  decreasing_by
  · apply Prod.Lex.right
    simp
  · apply Prod.Lex.left
    refine length_filter_lt_of_mem _ _ allIds ?_ id_ (hs id_ (List.mem_cons_self _ _)) ?_ ?_
    · intro x hx
      simp only [decide_eq_true_eq, List.mem_cons, not_or] at hx ⊢
      exact hx.2
    · simp only [decide_eq_true_eq]
      exact fun hmem => hskip (Or.inr hmem)
    · simp
  · apply Prod.Lex.left
    refine length_filter_lt_of_mem _ _ allIds ?_ id_ (hs id_ (List.mem_cons_self _ _)) ?_ ?_
    · intro x hx
      simp only [decide_eq_true_eq, List.mem_cons, not_or] at hx ⊢
      exact hx.2
    · simp only [decide_eq_true_eq]
      exact fun hmem => hskip (Or.inr hmem)
    · simp

/-- Every id the walk can ever push: the initial roots plus every
`_childMotionID` of every motion. -/
def uaAllIds (roots : List Nat) (params : List MotionParam) : List Nat :=
  roots ++ params.bind uaChildren

theorem uaAllIds_hall (roots : List Nat) (params : List MotionParam) :
    ∀ mp ∈ params, ∀ c ∈ uaChildren mp, c ∈ uaAllIds roots params :=
  fun mp hmp c hc => List.mem_append.mpr (Or.inr (List.mem_bind.mpr ⟨mp, hmp, hc⟩))

theorem uaAllIds_roots (roots : List Nat) (params : List MotionParam) :
    ∀ x ∈ roots, x ∈ uaAllIds roots params :=
  fun x hx => List.mem_append.mpr (Or.inl hx)

/-- The traversal of `parse_uianimation` started on a given root list, with
the visited-id set (as a list in visit order, most recent first) and the
emitted blocks. -/
def parse_uianimation_core (params : List MotionParam) (roots : List Nat) :
    List Nat × List Block :=
  uaGo params (uaAllIds roots params) (uaAllIds_hall roots params) roots
    (uaAllIds_roots roots params) [] []

/-- The data `parse_uianimation` consumes: the `_motionParameterList` and the
`_rootMotionID` (0 = falsy/absent). -/
structure UiPayload where
  motionParameterList : List MotionParam
  rootMotionID : Nat
  deriving DecidableEq

/-- Lines 395-400: start from the declared root when truthy, otherwise visit
every motion id in list order (`motion_map.keys()`; duplicate ids are skipped
by the visited set, so iterating the raw list is equivalent). -/
def uaRoots (p : UiPayload) : List Nat :=
  if p.rootMotionID ≠ 0 then [p.rootMotionID]
  else p.motionParameterList.map (fun m => m.mid)

/-- `parse_uianimation` from `asset_loader.py` lines 338-402.  `none` models a
missing `_motionParameterGroup` MonoBehaviour; an empty
`_motionParameterList` short-circuits to an empty document. -/
def parse_uianimation : Option UiPayload → Option Doc
  | none => none
  | some p =>
    if p.motionParameterList = [] then some { Doc.empty with textBlocks := [] }
    else
      some { Doc.empty with
              textBlocks := (parse_uianimation_core p.motionParameterList (uaRoots p)).2 }

/-- The final `processed_motion_ids` of a `parse_uianimation` run. -/
def parse_uianimation_trace (p : UiPayload) : List Nat :=
  if p.motionParameterList = [] then []
  else (parse_uianimation_core p.motionParameterList (uaRoots p)).1

theorem uaGo_cons_skip (params : List MotionParam) (allIds : List Nat)
    (hall : ∀ mp ∈ params, ∀ c ∈ uaChildren mp, c ∈ allIds)
    (id_ : Nat) (rest : List Nat) (hs : ∀ x ∈ id_ :: rest, x ∈ allIds)
    (hs' : ∀ x ∈ rest, x ∈ allIds) (processed : List Nat) (acc : List Block)
    (hskip : id_ = 0 ∨ id_ ∈ processed) :
    uaGo params allIds hall (id_ :: rest) hs processed acc =
      uaGo params allIds hall rest hs' processed acc := by
  simp only [uaGo, dif_pos hskip]

theorem uaGo_cons_none (params : List MotionParam) (allIds : List Nat)
    (hall : ∀ mp ∈ params, ∀ c ∈ uaChildren mp, c ∈ allIds)
    (id_ : Nat) (rest : List Nat) (hs : ∀ x ∈ id_ :: rest, x ∈ allIds)
    (hs' : ∀ x ∈ rest, x ∈ allIds) (processed : List Nat) (acc : List Block)
    (hskip : ¬(id_ = 0 ∨ id_ ∈ processed)) (hfind : motionMapFind params id_ = none) :
    uaGo params allIds hall (id_ :: rest) hs processed acc =
      uaGo params allIds hall rest hs' (id_ :: processed) acc := by
  simp only [uaGo, dif_neg hskip]
  split
  · rfl
  · rename_i mp2 hfind2
    rw [hfind] at hfind2
    simp at hfind2

theorem uaGo_cons_some (params : List MotionParam) (allIds : List Nat)
    (hall : ∀ mp ∈ params, ∀ c ∈ uaChildren mp, c ∈ allIds)
    (id_ : Nat) (rest : List Nat) (hs : ∀ x ∈ id_ :: rest, x ∈ allIds)
    (processed : List Nat) (acc : List Block)
    (hskip : ¬(id_ = 0 ∨ id_ ∈ processed)) (mp : MotionParam)
    (hfind : motionMapFind params id_ = some mp)
    (hs' : ∀ x ∈ uaChildren mp ++ rest, x ∈ allIds) :
    uaGo params allIds hall (id_ :: rest) hs processed acc =
      uaGo params allIds hall (uaChildren mp ++ rest) hs' (id_ :: processed)
        (acc ++ uaTexts (motionIdxFind params id_) mp) := by
  simp only [uaGo, dif_neg hskip]
  split
  · rename_i hfind2
    rw [hfind] at hfind2
    simp at hfind2
  · rename_i mp2 hfind2
    rw [hfind] at hfind2
    injection hfind2 with h
    subst h
    rfl

theorem uaGo_nodup (params : List MotionParam) (allIds : List Nat)
    (hall : ∀ mp ∈ params, ∀ c ∈ uaChildren mp, c ∈ allIds)
    (stack : List Nat) (hs : ∀ x ∈ stack, x ∈ allIds)
    (processed : List Nat) (acc : List Block) :
    processed.Nodup → (uaGo params allIds hall stack hs processed acc).1.Nodup := by
  induction stack, hs, processed, acc using uaGo.induct params allIds hall with
  | case1 x processed acc hx =>
    intro hnd
    simpa [uaGo] using hnd
  | case2 id_ rest hs processed acc hskip hsx ih =>
    intro hnd
    rw [uaGo_cons_skip params allIds hall id_ rest hs
      (fun x hx => hs x (List.mem_cons_of_mem _ hx)) processed acc hskip]
    exact ih hnd
  | case3 id_ rest hs processed acc hskip hfind hsx ih =>
    intro hnd
    rw [uaGo_cons_none params allIds hall id_ rest hs
      (fun x hx => hs x (List.mem_cons_of_mem _ hx)) processed acc hskip hfind]
    exact ih (List.Nodup.cons (fun hmem => hskip (Or.inr hmem)) hnd)
  | case4 id_ rest hs processed acc hskip mp hfind hsx ih =>
    intro hnd
    rw [uaGo_cons_some params allIds hall id_ rest hs processed acc hskip mp hfind
      (fun x hx => (List.mem_append.mp hx).elim
        (fun hc => hall mp (List.mem_of_mem_filter (mem_of_getLast? hfind)) x hc)
        (fun hr => hs x (List.mem_cons_of_mem _ hr)))]
    exact ih (List.Nodup.cons (fun hmem => hskip (Or.inr hmem)) hnd)

theorem uaGo_mem_processed (params : List MotionParam) (allIds : List Nat)
    (hall : ∀ mp ∈ params, ∀ c ∈ uaChildren mp, c ∈ allIds)
    (stack : List Nat) (hs : ∀ x ∈ stack, x ∈ allIds)
    (processed : List Nat) (acc : List Block) (y : Nat) :
    y ∈ processed → y ∈ (uaGo params allIds hall stack hs processed acc).1 := by
  induction stack, hs, processed, acc using uaGo.induct params allIds hall with
  | case1 x processed acc hx =>
    intro hy
    simpa [uaGo] using hy
  | case2 id_ rest hs processed acc hskip hsx ih =>
    intro hy
    rw [uaGo_cons_skip params allIds hall id_ rest hs
      (fun x hx => hs x (List.mem_cons_of_mem _ hx)) processed acc hskip]
    exact ih hy
  | case3 id_ rest hs processed acc hskip hfind hsx ih =>
    intro hy
    rw [uaGo_cons_none params allIds hall id_ rest hs
      (fun x hx => hs x (List.mem_cons_of_mem _ hx)) processed acc hskip hfind]
    exact ih (List.mem_cons_of_mem _ hy)
  | case4 id_ rest hs processed acc hskip mp hfind hsx ih =>
    intro hy
    rw [uaGo_cons_some params allIds hall id_ rest hs processed acc hskip mp hfind
      (fun x hx => (List.mem_append.mp hx).elim
        (fun hc => hall mp (List.mem_of_mem_filter (mem_of_getLast? hfind)) x hc)
        (fun hr => hs x (List.mem_cons_of_mem _ hr)))]
    exact ih (List.mem_cons_of_mem _ hy)

theorem uaTexts_enText (idx : Int) (mp : MotionParam) :
    ∀ b ∈ uaTexts idx mp, b.enText = some "" := by
  intro b hb
  unfold uaTexts at hb
  rcases List.mem_filterMap.mp hb with ⟨a, -, ha⟩
  rcases a with ⟨i, tp⟩
  cases tp with
  | none => simp at ha
  | some tp =>
    by_cases ht : pyStrip (tp.text.getD "") ≠ ""
    · simp only [if_pos ht, Option.some.injEq] at ha
      rw [← ha]
    · simp [ht] at ha

theorem uaGo_enText (params : List MotionParam) (allIds : List Nat)
    (hall : ∀ mp ∈ params, ∀ c ∈ uaChildren mp, c ∈ allIds)
    (stack : List Nat) (hs : ∀ x ∈ stack, x ∈ allIds)
    (processed : List Nat) (acc : List Block) :
    (∀ b ∈ acc, b.enText = some "") →
    ∀ b ∈ (uaGo params allIds hall stack hs processed acc).2, b.enText = some "" := by
  induction stack, hs, processed, acc using uaGo.induct params allIds hall with
  | case1 x processed acc hx =>
    intro hacc
    simpa [uaGo] using hacc
  | case2 id_ rest hs processed acc hskip hsx ih =>
    intro hacc
    rw [uaGo_cons_skip params allIds hall id_ rest hs
      (fun x hx => hs x (List.mem_cons_of_mem _ hx)) processed acc hskip]
    exact ih hacc
  | case3 id_ rest hs processed acc hskip hfind hsx ih =>
    intro hacc
    rw [uaGo_cons_none params allIds hall id_ rest hs
      (fun x hx => hs x (List.mem_cons_of_mem _ hx)) processed acc hskip hfind]
    exact ih hacc
  | case4 id_ rest hs processed acc hskip mp hfind hsx ih =>
    intro hacc
    rw [uaGo_cons_some params allIds hall id_ rest hs processed acc hskip mp hfind
      (fun x hx => (List.mem_append.mp hx).elim
        (fun hc => hall mp (List.mem_of_mem_filter (mem_of_getLast? hfind)) x hc)
        (fun hr => hs x (List.mem_cons_of_mem _ hr)))]
    refine ih ?_
    intro b hb
    rcases List.mem_append.mp hb with hb | hb
    · exact hacc b hb
    · exact uaTexts_enText (motionIdxFind params id_) mp b hb

theorem uaGo_root_mem (params : List MotionParam) (allIds : List Nat)
    (hall : ∀ mp ∈ params, ∀ c ∈ uaChildren mp, c ∈ allIds)
    (r : Nat) (rest : List Nat) (hs : ∀ x ∈ r :: rest, x ∈ allIds)
    (acc : List Block) (hr : r ≠ 0) :
    r ∈ (uaGo params allIds hall (r :: rest) hs [] acc).1 := by
  have hskip : ¬(r = 0 ∨ r ∈ ([] : List Nat)) := by simp [hr]
  cases hfind : motionMapFind params r with
  | none =>
    rw [uaGo_cons_none params allIds hall r rest hs
      (fun x hx => hs x (List.mem_cons_of_mem _ hx)) [] acc hskip hfind]
    exact uaGo_mem_processed _ _ _ _ _ _ _ r (List.mem_cons_self r [])
  | some mp =>
    rw [uaGo_cons_some params allIds hall r rest hs [] acc hskip mp hfind
      (fun x hx => (List.mem_append.mp hx).elim
        (fun hc => hall mp (List.mem_of_mem_filter (mem_of_getLast? hfind)) x hc)
        (fun hr2 => hs x (List.mem_cons_of_mem _ hr2)))]
    exact uaGo_mem_processed _ _ _ _ _ _ _ r (List.mem_cons_self r [])

/-- C6: on every motion parameter graph — cycles and self-references included
— the traversal of `parse_uianimation` terminates (it is a total Lean
function) with a duplicate-free visited-id list, and a non-zero declared root
of a non-empty motion list (in particular a motion whose own child list
contains its id) is visited exactly once. -/
theorem claim_C6_ua_termination (p : UiPayload) :
    (parse_uianimation_trace p).Nodup ∧
    (p.rootMotionID ≠ 0 → p.motionParameterList ≠ [] →
      (parse_uianimation_trace p).count p.rootMotionID = 1) := by
  constructor
  · unfold parse_uianimation_trace
    by_cases hp : p.motionParameterList = []
    · simp [hp]
    · rw [if_neg hp]
      exact uaGo_nodup _ _ _ _ _ _ _ List.nodup_nil
  · intro hr hp
    unfold parse_uianimation_trace
    rw [if_neg hp]
    have hroots : uaRoots p = [p.rootMotionID] := by
      unfold uaRoots
      rw [if_pos hr]
    have hmem : p.rootMotionID ∈
        (parse_uianimation_core p.motionParameterList (uaRoots p)).1 := by
      rw [hroots]
      unfold parse_uianimation_core
      exact uaGo_root_mem _ _ _ _ _ _ _ hr
    have hnd : (parse_uianimation_core p.motionParameterList (uaRoots p)).1.Nodup := by
      unfold parse_uianimation_core
      exact uaGo_nodup _ _ _ _ _ _ _ List.nodup_nil
    exact List.count_eq_one_of_mem hnd hmem

/-- A motion whose child list contains its own id. -/
def c6SelfMotion : MotionParam := ⟨5, none, [], [5], []⟩

/-- Witness for C6: the self-referencing one-motion graph rooted at 5 is
traversed and motion 5 is visited exactly once. -/
theorem claim_C6_ua_termination_witness :
    (parse_uianimation_trace ⟨[c6SelfMotion], 5⟩).count 5 = 1 :=
  (claim_C6_ua_termination ⟨[c6SelfMotion], 5⟩).2 (by decide) (by decide)

theorem parse_uianimation_enText (p : Option UiPayload) :
    ∀ d, parse_uianimation p = some d → ∀ b ∈ d.textBlocks, b.enText = some "" := by
  intro d hd b hb
  cases p with
  | none => simp [parse_uianimation] at hd
  | some p =>
    simp only [parse_uianimation] at hd
    by_cases hp : p.motionParameterList = []
    · rw [if_pos hp] at hd
      injection hd with hd
      rw [← hd] at hb
      simp at hb
    · rw [if_neg hp] at hd
      injection hd with hd
      rw [← hd] at hb
      simp only at hb
      exact uaGo_enText _ _ _ _ _ _ _ (by intro b hb; simp at hb) b hb

/-- The scene graphs of the modelled walkers (story, race, lyrics, UI
animation; the home, preview and generic walkers are not needed by any
claim). -/
inductive PEnv where
  | story (p : Option StoryPayload)
  | race (objs : List (Option (List RaceEntry)))
  | lyricsEnv (assets : List (Option String))
  | ui (p : Option UiPayload)
  deriving DecidableEq

/-- The `PARSER_MAP` dispatch (extractor.py lines 12-20 and 72-74) for the
modelled walkers. -/
def runParser : String → PEnv → Option Doc
  | "story", .story p => parse_story_timeline p
  | "race", .race objs => parse_race_story objs
  | "lyrics", .lyricsEnv assets => parse_lyrics assets
  | "uianimation", .ui p => parse_uianimation p
  | _, _ => none

/-- `extract_asset_data` from `extractor.py` lines 62-93: parse (a `none`
result models the raised `RuntimeError`), attach `asset_name`, `group_name`
(when resolved) and `type`, attach `bundle_hashes` for `uianimation` assets
(when the hash resolves), and merge with the existing workspace document
for every asset type except `uianimation`. -/
def extract_asset_data (assetType : String) (env : PEnv) (assetName : String)
    (groupName : Option String) (hashInfo : Option String)
    (workspaceDoc : Option Doc) : Option Doc :=
  match runParser assetType env with
  | none => none
  | some d0 =>
    let d1 := { d0 with assetName := some assetName }
    let d2 := match groupName with
      | some g => { d1 with groupName := some g }
      | none => d1
    let d3 := { d2 with assetType := some assetType }
    let d4 :=
      if assetType = "uianimation" then
        match hashInfo with
        | some hs => { d3 with bundleHashes := some hs }
        | none => d3
      else d3
    if assetType ≠ "uianimation" then some (merge_translations d4 workspaceDoc)
    else some d4

/-- Every block of the (optional) document has empty translated text. -/
def docBlocksEnEmpty : Option Doc → Bool
  | none => true
  | some d => d.textBlocks.all (fun b => b.enText == some "")

/-- C9: for asset type "uianimation", `extract_asset_data` never merges: its
result does not depend on the supplied workspace document, and every block of
the result carries empty translated text. -/
theorem claim_C9_ui_no_merge (p : Option UiPayload) (assetName : String)
    (groupName hashInfo : Option String) (ws : Option Doc) :
    extract_asset_data "uianimation" (.ui p) assetName groupName hashInfo ws =
      extract_asset_data "uianimation" (.ui p) assetName groupName hashInfo none ∧
    docBlocksEnEmpty
      (extract_asset_data "uianimation" (.ui p) assetName groupName hashInfo ws) = true := by
  constructor
  · rfl
  · cases hd : runParser "uianimation" (.ui p) with
    | none => simp [extract_asset_data, hd, docBlocksEnEmpty]
    | some d0 =>
      have hpd : parse_uianimation p = some d0 := hd
      have hall := parse_uianimation_enText p d0 hpd
      cases groupName <;> cases hashInfo <;>
        simp [extract_asset_data, hd, docBlocksEnEmpty, List.all_eq_true] <;>
        exact hall

theorem storyWalk_voiceIdx (p : StoryPayload) :
    ∀ (l : List TLEntry) (i : Nat) (g : Int),
      (storyWalk p i g l).map (fun b => b.voiceIdx) =
        (l.filterMap (fun e => match e with
          | TLEntry.malformed => none
          | TLEntry.clip pathId => lookupClip p pathId)).map (fun c => c.cueId) := by
  intro l
  induction l with
  | nil => intro i g; rfl
  | cons e rest ih =>
    intro i g
    cases e with
    | malformed =>
      simp only [storyWalk, storyBlockOf, List.filterMap_cons]
      exact ih _ _
    | clip pathId =>
      cases hc : lookupClip p pathId with
      | none =>
        simp only [storyWalk, storyBlockOf, hc, List.filterMap_cons]
        exact ih _ _
      | some c =>
        simp only [storyWalk, storyBlockOf, hc, List.filterMap_cons, List.map_cons,
          storyBlockData]
        rw [ih _ _]

theorem storyWalk_blockIndex (p : StoryPayload) :
    ∀ (l : List TLEntry) (i : Nat) (g : Int),
      (storyWalk p i g l).map (fun b => b.blockIndex) =
        (storyKeptPositionsAux p i l).map (fun n => some (n : Int)) := by
  intro l
  induction l with
  | nil => intro i g; rfl
  | cons e rest ih =>
    intro i g
    cases e with
    | malformed =>
      simp only [storyWalk, storyBlockOf, storyKeptPositionsAux]
      exact ih _ _
    | clip pathId =>
      cases hc : lookupClip p pathId with
      | none =>
        simp only [storyWalk, storyBlockOf, storyKeptPositionsAux, hc]
        exact ih _ _
      | some c =>
        simp only [storyWalk, storyBlockOf, storyKeptPositionsAux, hc, List.map_cons,
          storyBlockData]
        rw [ih _ _]
        simp

theorem storyKeptPositionsAux_props (p : StoryPayload) :
    ∀ (l : List TLEntry) (i : Nat),
      (∀ x ∈ storyKeptPositionsAux p i l, i ≤ x) ∧
        List.Chain' (· < ·) (storyKeptPositionsAux p i l) := by
  intro l
  induction l with
  | nil =>
    intro i
    exact ⟨by simp [storyKeptPositionsAux], by simp [storyKeptPositionsAux]⟩
  | cons e rest ih =>
    intro i
    cases e with
    | malformed =>
      simp only [storyKeptPositionsAux]
      obtain ⟨h1, h2⟩ := ih (i + 1)
      exact ⟨fun x hx => le_trans (Nat.le_succ i) (h1 x hx), h2⟩
    | clip pathId =>
      cases hc : lookupClip p pathId with
      | none =>
        simp only [storyKeptPositionsAux, hc]
        obtain ⟨h1, h2⟩ := ih (i + 1)
        exact ⟨fun x hx => le_trans (Nat.le_succ i) (h1 x hx), h2⟩
      | some c =>
        simp only [storyKeptPositionsAux, hc]
        obtain ⟨h1, h2⟩ := ih (i + 1)
        constructor
        · intro x hx
          rcases List.mem_cons.mp hx with rfl | hx
          · exact le_refl x
          · exact le_trans (Nat.le_succ i) (h1 x hx)
        · rw [List.chain'_cons']
          exact ⟨fun y hy => lt_of_lt_of_le (Nat.lt_succ_self i)
            (h1 y (List.mem_of_mem_head? hy)), h2⟩

/-- The clip entering block 0 of the counterexample: cue id 10, flag 2. -/
def c1Clip1 : TextClip := ⟨some "n", some 10, some 2, some "t1", none, none, [], []⟩

/-- The clip entering block 1: cue id 20, flag 4. -/
def c1Clip2 : TextClip := ⟨some "n", some 20, some 4, some "t2", none, none, [], []⟩

/-- The clip entering block 2: cue id 30, no flag. -/
def c1Clip3 : TextClip := ⟨some "n", some 30, some 0, some "t3", none, none, [], []⟩

/-- A timeline with the three clips above (`BlockList[0]` is always skipped). -/
def c1Payload : StoryPayload :=
  ⟨none, [TLEntry.malformed, TLEntry.clip 1, TLEntry.clip 2, TLEntry.clip 3],
   [(1, some c1Clip1), (2, some c1Clip2), (3, some c1Clip3)], []⟩

/-- C1 counterexample: on the concrete timeline (cue 10 flag 2, then cue 20
flag 4, then cue 30), the emitted `voiceIdx` values are the raw cue ids
10, 20, 30 — not the offset-adjusted 11, 21, 31 the claim prescribes. -/
theorem claim_C1_counterexample :
    ((parse_story_timeline (some c1Payload)).map
        (fun d => d.textBlocks.map (fun b => b.voiceIdx))) =
      some [some 10, some 20, some 30] ∧
    ((parse_story_timeline (some c1Payload)).map
        (fun d => d.textBlocks.map (fun b => b.voiceIdx))) ≠
      some [some 11, some 21, some 31] := by
  constructor
  · decide
  · decide

/-- C1 (amended): the timeline walker records each emitted block's voice cue
id as the block's original cue id, unmodified; the renumbered cue id
(`final_cue_id`) is computed in block order and then discarded: a difference
flag of 2 adds +1 to that block's own renumbered id, and a flag of 4
increments a global offset added to the renumbered ids of strictly later
blocks only — so on the counterexample timeline the renumbered ids are 11
(10+1), 20 (the flag-4 block itself is unchanged) and 31 (30 + the global
offset 1). -/
theorem claim_C1_amended (p : StoryPayload) :
    ((parse_story_timeline (some p)).map
        (fun d => d.textBlocks.map (fun b => b.voiceIdx))) =
      some ((storyKeptClips p).map (fun c => c.cueId)) ∧
    story_final_cue_ids c1Payload = [some 11, some 20, some 31] := by
  constructor
  · show some ((storyWalk p 0 0 (p.blockList.drop 1)).map (fun b => b.voiceIdx)) = _
    rw [storyWalk_voiceIdx p (p.blockList.drop 1) 0 0]
    rfl
  · decide

theorem lyricsBlocks_noIdx :
    ∀ (rows : List (List String)) (bs : List Block), lyricsBlocks rows = some bs →
      ∀ b ∈ bs, b.blockIndex = none := by
  intro rows
  induction rows with
  | nil =>
    intro bs hbs b hb
    simp only [lyricsBlocks, Option.some.injEq] at hbs
    rw [← hbs] at hb
    simp at hb
  | cons row rest ih =>
    intro bs hbs b hb
    match row with
    | [] => exact ih bs hbs b hb
    | f :: fields =>
      simp only [lyricsBlocks] at hbs
      by_cases hf : f = ""
      · rw [if_pos hf] at hbs
        exact ih bs hbs b hb
      · rw [if_neg hf] at hbs
        match fields with
        | [] => simp at hbs
        | text :: more =>
          cases hrest : lyricsBlocks rest with
          | none => rw [hrest] at hbs; simp at hbs
          | some bs' =>
            rw [hrest] at hbs
            simp only [Option.map_some', Option.some.injEq] at hbs
            rw [← hbs] at hb
            rcases List.mem_cons.mp hb with rfl | hb
            · rfl
            · exact ih bs' hrest b hb

/-- Every block of the (optional) document carries no `block_index` key. -/
def docBlocksNoIdx : Option Doc → Bool
  | none => true
  | some d => d.textBlocks.all (fun b => b.blockIndex == none)

theorem parse_lyrics_noIdx (assets : List (Option String)) :
    docBlocksNoIdx (parse_lyrics assets) = true := by
  induction assets with
  | nil => rfl
  | cons a rest ih =>
    cases a with
    | none => simpa [parse_lyrics] using ih
    | some s =>
      simp only [parse_lyrics]
      by_cases hs : s = ""
      · rw [if_pos hs]
        exact ih
      · rw [if_neg hs]
        cases hscript : lyricsFromScript s with
        | none => exact ih
        | some bs =>
          cases bs with
          | nil => exact ih
          | cons b bs' =>
            simp only [docBlocksNoIdx, List.all_eq_true]
            intro x hx
            have := lyricsBlocks_noIdx _ _ hscript x (by simpa using hx)
            simp [this]

/-- The `block_index` value the race walker emits for one item. -/
def raceKeyOf : RaceEntry → Option (Option Int)
  | .junk => none
  | .item k _ => some k

/-- The block indices of the (optional) document. -/
def docBlockIdx : Option Doc → Option (List (Option Int))
  | none => none
  | some d => some (d.textBlocks.map (fun b => b.blockIndex))

theorem race_blockIdx (entries : List RaceEntry) (rest : List (Option (List RaceEntry))) :
    docBlockIdx (parse_race_story ((some entries) :: rest)) =
      some (entries.filterMap raceKeyOf) := by
  simp only [parse_race_story, docBlockIdx, Option.some.injEq]
  induction entries with
  | nil => rfl
  | cons e es ih =>
    cases e with
    | junk => simpa [raceBlockOf, raceKeyOf, List.filterMap_cons] using ih
    | item k t =>
      simp only [raceBlockOf, raceKeyOf, List.filterMap_cons, List.map_cons]
      rw [ih]

/-- The 2-line header plus one `time,text` row: the lyrics walker emits a
block with a `time` key and no `block_index`. -/
def c3LyricsScript : String := "h1\nh2\nt1,hello"

/-- A race `textData` with two items sharing the key 5. -/
def c3RaceObjs : List (Option (List RaceEntry)) :=
  [some [RaceEntry.item (some 5) (some "a"), RaceEntry.item (some 5) (some "b")]]

/-- C3 counterexample: the lyrics walker emits a block carrying no
`block_index` at all, and the race walker copies the items' own keys, which
here are the duplicate 5, 5 — neither unique nor dense. -/
theorem claim_C3_counterexample :
    docBlockIdx (parse_lyrics [some c3LyricsScript]) = some [none] ∧
    docBlockIdx (parse_race_story c3RaceObjs) = some [some 5, some 5] := by
  constructor
  · decide
  · decide

/-- C3 (amended): the story timeline walker's blocks all carry `block_index`,
equal to the block's 0-based position in `BlockList[1:]`; the kept positions
are strictly increasing, so these indices are unique and dense in extraction
order with gaps exactly at skipped malformed blocks.  The race walker instead
copies each item's own `key` value (not guaranteed unique or dense), and the
lyrics walker's blocks carry no `block_index` key at all. -/
theorem claim_C3_amended (p : StoryPayload) (entries : List RaceEntry)
    (rest : List (Option (List RaceEntry))) (assets : List (Option String)) :
    ((parse_story_timeline (some p)).map
        (fun d => d.textBlocks.map (fun b => b.blockIndex))) =
      some ((storyKeptPositions p).map (fun n => some (n : Int))) ∧
    List.Chain' (· < ·) (storyKeptPositions p) ∧
    docBlockIdx (parse_race_story ((some entries) :: rest)) =
      some (entries.filterMap raceKeyOf) ∧
    docBlocksNoIdx (parse_lyrics assets) = true := by
  refine ⟨?_, ?_, race_blockIdx entries rest, parse_lyrics_noIdx assets⟩
  · show some ((storyWalk p 0 0 (p.blockList.drop 1)).map (fun b => b.blockIndex)) = _
    rw [storyWalk_blockIndex p (p.blockList.drop 1) 0 0]
    rfl
  · exact (storyKeptPositionsAux_props p (p.blockList.drop 1) 0).2

/-- The failure modes of one chunk step: a `requests` network error
(`RequestException`, caught by the handler) or an OS-level write error
(`OSError`, not caught). -/
inductive FailKind where
  | net
  | ioErr
  deriving DecidableEq

/-- One download attempt's behavior: the `auto_download_assets` policy flag,
whether the category string is one of "bundle"/"generic", whether
`requests.get` and `raise_for_status` succeed, the chunk list
`iter_content` yields, and an optional failure at a chunk index. -/
structure DLEnv where
  autoDownloadAssets : Bool
  categoryKnown : Bool
  httpOk : Bool
  chunks : List (List Nat)
  failAt : Option (Nat × FailKind)
  deriving DecidableEq

/-- The outcome of `download_asset`: a normal Boolean return, or an exception
that propagates out of the function. -/
inductive DLOutcome where
  | ret (b : Bool)
  | raised
  deriving DecidableEq

/-- The chunk write loop (lines 505-507): the failure hit, if any, and the
bytes written before it. -/
def streamChunks (failAt : Option (Nat × FailKind)) :
    List (List Nat) → Nat → List Nat → Option FailKind × List Nat
  | [], _, acc => (none, acc)
  | c :: cs, i, acc =>
    match failAt with
    | some pf =>
      if pf.1 = i then (some pf.2, acc) else streamChunks failAt cs (i + 1) (acc ++ c)
    | none => streamChunks failAt cs (i + 1) (acc ++ c)

/-- `AssetManager.download_asset` from `asset_loader.py` lines 473-515, as a
function of the attempt's behavior.  Result: outcome, final file content at
the target path (`none` = no file; the caller only invokes this when no file
exists), and whether the network was touched.  The `except` clause catches
only `requests.exceptions.RequestException` — on such errors the partial
file is removed and `False` returned; an `OSError` during the write loop
propagates and the partially written file stays in place. -/
def download_asset (env : DLEnv) : DLOutcome × Option (List Nat) × Bool :=
  if ¬ env.autoDownloadAssets then (.ret false, none, false)
  else if ¬ env.categoryKnown then (.ret false, none, false)
  else if ¬ env.httpOk then (.ret false, none, true)
  else
    match streamChunks env.failAt env.chunks 0 [] with
    | (some .net, _) => (.ret false, none, true)
    | (some .ioErr, written) => (.raised, some written, true)
    | (none, written) => (.ret true, some written, true)

theorem streamChunks_none (cs : List (List Nat)) :
    ∀ (i : Nat) (acc : List Nat), streamChunks none cs i acc = (none, acc ++ cs.join) := by
  induction cs with
  | nil => intro i acc; simp [streamChunks]
  | cons c cs ih =>
    intro i acc
    simp only [streamChunks, ih, List.join_cons, List.append_assoc]

theorem streamChunks_fail (i : Nat) (k : FailKind) (cs : List (List Nat)) :
    ∀ (j : Nat) (acc : List Nat), j ≤ i → i < j + cs.length →
      (streamChunks (some (i, k)) cs j acc).1 = some k := by
  induction cs with
  | nil =>
    intro j acc hj hlt
    simp at hlt
    omega
  | cons c cs ih =>
    intro j acc hj hlt
    simp only [streamChunks]
    by_cases hij : i = j
    · rw [if_pos hij]
    · rw [if_neg hij]
      exact ih (j + 1) (acc ++ c) (by omega) (by simp at hlt ⊢; omega)

/-- C8 (amended): when the policy flag is disabled, `download_asset` returns
failure with no network access and no file; when the HTTP request or a chunk
fetch fails with a `RequestException`, it returns failure with the partial
file deleted; a successful attempt writes all chunks.  (An `OSError` during
the write loop instead propagates and leaves the partial file — see the
counterexample.) -/
theorem claim_C8_amended (env : DLEnv) :
    (env.autoDownloadAssets = false → download_asset env = (.ret false, none, false)) ∧
    (env.autoDownloadAssets = true → env.categoryKnown = true → env.httpOk = false →
      download_asset env = (.ret false, none, true)) ∧
    (∀ i, env.autoDownloadAssets = true → env.categoryKnown = true → env.httpOk = true →
      env.failAt = some (i, .net) → i < env.chunks.length →
      download_asset env = (.ret false, none, true)) ∧
    (env.autoDownloadAssets = true → env.categoryKnown = true → env.httpOk = true →
      env.failAt = none →
      download_asset env = (.ret true, some env.chunks.join, true)) := by
  refine ⟨?_, ?_, ?_, ?_⟩
  · intro h
    simp [download_asset, h]
  · intro h1 h2 h3
    simp [download_asset, h1, h2, h3]
  · intro i h1 h2 h3 hfail hlen
    have hsc := streamChunks_fail i FailKind.net env.chunks 0 [] (Nat.zero_le i) (by omega)
    rw [← hfail] at hsc
    simp only [download_asset, h1, h2, h3, Bool.not_true, Bool.false_eq_true, if_false]
    cases hpair : streamChunks env.failAt env.chunks 0 [] with
    | mk fk written =>
      rw [hpair] at hsc
      simp only at hsc
      rw [hsc]
      simp
  · intro h1 h2 h3 hfail
    simp only [download_asset, h1, h2, h3, Bool.not_true, Bool.false_eq_true, if_false]
    rw [hfail, streamChunks_none env.chunks 0 []]
    simp

/-- A download whose second chunk write hits an `OSError`. -/
def c8Env : DLEnv := ⟨true, true, true, [[1], [2]], some (1, FailKind.ioErr)⟩

/-- C8 counterexample: this failed download attempt (an `OSError` while
writing the second chunk) does not return failure with the partial file
deleted — the exception propagates and the partially written file `[1]`
remains at the target path. -/
theorem claim_C8_counterexample :
    (download_asset c8Env).1 ≠ DLOutcome.ret true ∧
    (download_asset c8Env).2.1 = some [1] := by
  constructor
  · decide
  · decide

/-- Witness for the amended C8 at four concrete attempts: flag disabled;
HTTP failure; network failure at chunk 0; success. -/
theorem claim_C8_amended_witness :
    download_asset ⟨false, true, true, [], none⟩ = (.ret false, none, false) ∧
    download_asset ⟨true, true, false, [], none⟩ = (.ret false, none, true) ∧
    download_asset ⟨true, true, true, [[7]], some (0, FailKind.net)⟩ = (.ret false, none, true) ∧
    download_asset ⟨true, true, true, [[7]], none⟩ = (.ret true, some [7], true) :=
  ⟨(claim_C8_amended ⟨false, true, true, [], none⟩).1 rfl,
   (claim_C8_amended ⟨true, true, false, [], none⟩).2.1 rfl rfl rfl,
   (claim_C8_amended ⟨true, true, true, [[7]], some (0, FailKind.net)⟩).2.2.1 0 rfl rfl rfl rfl
     (by decide),
   (claim_C8_amended ⟨true, true, true, [[7]], none⟩).2.2.2 rfl rfl rfl rfl⟩

/-- The on-disk state `process_asset` touches: the workspace JSON and the
mod-directory JSON for one asset. -/
structure PAState where
  workspaceFile : Option Doc
  modFile : Option Doc
  deriving DecidableEq

/-- `process_asset` from `extractor.py` lines 95-125: skip when the workspace
file exists and neither `--update` nor `--overwrite` is set; otherwise run
`extract_asset_data` (`none` models a raised exception: "failed", state
unchanged), write the merged document to the workspace path, then run the
mod build step.  That step, `convert_to_hachimi_format(workspace_data)`,
references the undefined name `workspace_data` (line 113), so it raises
`NameError`; the broad `except` turns any such exception into the outcome
"failed" — after the workspace file has already been written, and without
touching the mod file. -/
def process_asset (update overwrite : Bool) (extractResult : Option Doc)
    (st : PAState) : String × PAState :=
  if st.workspaceFile.isSome ∧ ¬update ∧ ¬overwrite then ("skipped", st)
  else
    match extractResult with
    | none => ("failed", st)
    | some d => ("failed", { st with workspaceFile := some d })

/-- C10: whenever the skip branch is not taken and extraction succeeds, the
merged document is written to the workspace path before the mod-directory
build step, the build step raises, and `process_asset` returns "failed" with
the freshly written workspace file still in place (and the mod file
untouched) — a "failed" outcome does not mean the workspace is unchanged. -/
theorem claim_C10_failed_after_write (update overwrite : Bool) (d : Doc) (st : PAState)
    (hnoskip : ¬(st.workspaceFile.isSome ∧ ¬update ∧ ¬overwrite)) :
    process_asset update overwrite (some d) st =
      ("failed", { st with workspaceFile := some d }) ∧
    (process_asset update overwrite (some d) st).2.workspaceFile = some d ∧
    (process_asset update overwrite (some d) st).2.modFile = st.modFile := by
  have h : process_asset update overwrite (some d) st =
      ("failed", { st with workspaceFile := some d }) := by
    unfold process_asset
    rw [if_neg hnoskip]
  exact ⟨h, by rw [h], by rw [h]⟩

/-- Witness for C10: a fresh workspace (no file yet), no flags, a successful
extraction of the empty document. -/
theorem claim_C10_failed_after_write_witness :
    process_asset false false (some Doc.empty) ⟨none, none⟩ =
      ("failed", ⟨some Doc.empty, none⟩) ∧
    (process_asset false false (some Doc.empty) ⟨none, none⟩).2.workspaceFile =
      some Doc.empty ∧
    (process_asset false false (some Doc.empty) ⟨none, none⟩).2.modFile = none :=
  claim_C10_failed_after_write false false Doc.empty ⟨none, none⟩ (by decide)
